import Mathlib

/-!
# clientserver: a capture-and-delegate HTTP test harness

A shallow embedding of `clientserver/client_server.go` (package `clientserver` of
`github.com/gemalto/requests`).

A `*ClientServer` is a mutable Go object.  Its methods are embedded as functions that
take the state before the call and return the state after it.  Code that the harness
calls but does not own (the next executor of the chain, the handler installed by a
test) is an arbitrary function over the whole program state `World σ`: the harness
object, the `ServeMux` objects it may point to, and every other piece of memory `σ`
that such code can reach.

Requests and responses are immutable values; a pointer to one is modelled by the
value it points to, and a nil pointer by `none`.

Go interface values that the harness stores (`http.Handler`, `requests.Doer`) are
first-order references; what a reference does when it is called is given by an
interpretation (`serve`, `DoerRef.Do`).
-/

namespace clientserver

/-! ## Data model -/

/-- Go `error` values. -/
abbrev Error := String

/-- A `context.Context`, reduced to the values attached with `context.WithValue`,
innermost binding first. -/
structure Context where
  values : List (String × String)
deriving DecidableEq, Repr

/-- The Go `context.Background()`. -/
def Context.Background : Context := ⟨[]⟩

/-- The Go `context.WithValue(parent, key, val)`. -/
def Context.WithValue (parent : Context) (key val : String) : Context :=
  ⟨(key, val) :: parent.values⟩

/-- The Go `ctx.Value(key)`: the innermost binding of `key`, if any. -/
def Context.Value (c : Context) (key : String) : Option String :=
  (c.values.find? (fun kv => kv.1 == key)).map (fun kv => kv.2)

/-- An `*http.Request`.  `Path` is `req.URL.Path`. -/
structure Request where
  Method : String
  Path : String
  Header : List (String × String)
  Body : String
  ctx : Context
deriving DecidableEq, Repr

/-- The Go `req.Context()`. -/
def Request.Context (r : Request) : Context := r.ctx

/-- An `*http.Response`. -/
structure Response where
  StatusCode : Nat
  Header : List (String × String)
  Body : String
deriving DecidableEq, Repr

/-- An `http.ResponseWriter`, as the record of what has been written to it:
the header map, the status passed to the first `WriteHeader` (if any), and the
body chunks in the order they were written. -/
structure ResponseWriter where
  header : List (String × String)
  status : Option Nat
  body : List String
deriving DecidableEq, Repr

/-- A response writer nothing has been written to. -/
def ResponseWriter.fresh : ResponseWriter := ⟨[], none, []⟩

/-- The Go `w.WriteHeader(code)`: only the first call takes effect. -/
def ResponseWriter.WriteHeader (w : ResponseWriter) (code : Nat) : ResponseWriter :=
  match w.status with
  | some _ => w
  | none => { w with status := some code }

/-- The Go `w.Write(b)`: an implicit `WriteHeader(200)` if no status was written. -/
def ResponseWriter.Write (w : ResponseWriter) (b : String) : ResponseWriter :=
  let w1 := w.WriteHeader 200
  { w1 with body := w1.body ++ [b] }

/-- The status the transport sends for a writer: 200 unless `WriteHeader` set one. -/
def ResponseWriter.StatusCode (w : ResponseWriter) : Nat := w.status.getD 200

/-- A value of the Go interface `http.Handler`, as far as the harness tells such
values apart: the harness itself, a `*http.ServeMux` (by address), or any other
handler, for instance an `http.HandlerFunc` (by name). -/
inductive Handler where
  | clientServer
  | serveMux (addr : Nat)
  | handlerFunc (f : Nat)
deriving DecidableEq, Repr

/-- An `http.ServeMux`: the registered `(pattern, handler)` entries, oldest first. -/
structure ServeMux where
  entries : List (String × Nat)
deriving DecidableEq, Repr

/-- The Go `http.NewServeMux()`. -/
def NewServeMux : ServeMux := ⟨[]⟩

/-- The `http.Server` held in `httptest.Server.Config`. -/
structure HTTPServer where
  Handler : Option Handler
deriving DecidableEq, Repr

/-- An `httptest.Server`. -/
structure Server where
  URL : String
  Config : HTTPServer
  closed : Bool
deriving DecidableEq, Repr

/-- Modelled from the spec: a value of the interface `requests.Doer` (declared in the
package `requests`, outside this development) as the client stores it: the HTTP
client of the embedded server (`s.Client()`), the closure returned by
`t.captureClientReqResp(next)`, or a caller's middleware (by name) around `next`. -/
inductive DoerRef where
  | client
  | capture (next : DoerRef)
  | middleware (mw : Nat) (next : DoerRef)
deriving DecidableEq, Repr

/-- Modelled from the spec: the client `requests.Requests` (declared in the package
`requests`, outside this development), reduced to its base target and its executor. -/
structure Requests where
  URL : String
  Doer : DoerRef
deriving DecidableEq, Repr

/-- The struct `ClientServer`. -/
structure ClientServer where
  Server : Server
  Requests : Requests
  Handler : Option Handler
  LastSrvReq : Option Request
  LastClientReq : Option Request
  LastClientResp : Option Response
deriving DecidableEq, Repr

/-- The program state: the harness `t`, the `ServeMux` objects allocated so far
(a `*http.ServeMux` is an index into `heap`), and the rest of the memory `ext`. -/
structure World (σ : Type) where
  t : ClientServer
  heap : List ServeMux
  ext : σ

/-- What a call `d.Do(req)` returns, and the program state it leaves. -/
structure DoResult (σ : Type) where
  resp : Option Response
  err : Option Error
  w : World σ

/-- Modelled from the spec: the behaviour of a `requests.Doer` (declared in the
package `requests`, outside this development), the capability
`Do(req) (*http.Response, error)`. -/
abbrev Doer (σ : Type) := Request → World σ → DoResult σ

/-- What a call `h.ServeHTTP(w, req)` leaves: the response writer and the program
state, or `none` if the call does not return. -/
abbrev ServeResult (σ : Type) := Option (ResponseWriter × World σ)

/-- The behaviour of a handler function `func(w http.ResponseWriter, r *http.Request)`. -/
abbrev HandlerFn (σ : Type) := ResponseWriter → Request → World σ → ResponseWriter × World σ

/-- Dynamic dispatch of `h.ServeHTTP(w, req)` on an `http.Handler` value `h`. -/
abbrev Dispatch (σ : Type) := Handler → ResponseWriter → Request → World σ → ServeResult σ

/-! ## The methods of `ClientServer` -/

variable {σ : Type}

/-- `func (t *ClientServer) Clear()`. -/
def Clear (t : ClientServer) : ClientServer :=
  { t with LastClientReq := none, LastClientResp := none, LastSrvReq := none }

/-- `func (t *ClientServer) ServeHTTP(w http.ResponseWriter, req *http.Request)`.
The call `t.Handler.ServeHTTP(w, req)` goes through `call`. -/
def ServeHTTP (call : Dispatch σ) (w : ResponseWriter) (req : Request)
    (s : World σ) : ServeResult σ :=
  let s := { s with t := { s.t with LastSrvReq := some req } }
  match s.t.Handler with
  | some h => call h w req s
  | none => some (w, s)

/-- `func (t *ClientServer) captureClientReqResp(next requests.Doer) requests.Doer`. -/
def captureClientReqResp (next : Doer σ) : Doer σ := fun req s =>
  let s := { s with t := { s.t with LastClientReq := some req } }
  let r := next req s
  let s := { r.w with t := { r.w.t with LastClientResp := r.resp } }
  ⟨r.resp, r.err, s⟩

/-- `func (t *ClientServer) Mux() *http.ServeMux`.  The type assertion
`t.Config.Handler.(*http.ServeMux)` succeeds exactly on `Handler.serveMux`; a new
`ServeMux` is allocated at the next free address. -/
def Mux (s : World σ) : Nat × World σ :=
  match s.t.Server.Config.Handler with
  | some (.serveMux m) => (m, s)
  | _ =>
    let m := s.heap.length
    (m, { s with
          heap := s.heap ++ [NewServeMux]
          t := { s.t with Server := { s.t.Server with Config := { Handler := some (.serveMux m) } } } })

/-- `func (t *ClientServer) HandlerFunc(hf http.HandlerFunc)`. -/
def HandlerFunc (hf : Nat) (t : ClientServer) : ClientServer :=
  { t with Handler := some (.handlerFunc hf) }

/-- `func (t *ClientServer) Close()`. -/
def Close (t : ClientServer) : ClientServer :=
  { t with Server := { t.Server with closed := true } }

/-! ## The standard library around the harness

`net/http` routing and serving, as far as the harness depends on it. -/

/-- The handler `http.ServeMux` selects for a path: the entry whose pattern is the
path itself, and otherwise the longest pattern ending in `/` that the path starts
with.  (Host patterns, path cleaning and redirects are left out.) -/
def ServeMux.handler (m : ServeMux) (path : String) : Option Nat :=
  match m.entries.find? (fun e => e.1 == path) with
  | some e => some e.2
  | none =>
    let subtrees := m.entries.filter
      (fun e => e.1.toList.getLast? == some '/' && e.1.toList.isPrefixOf path.toList)
    (subtrees.foldl
      (fun best e =>
        match best with
        | none => some e
        | some b => if b.1.length < e.1.length then some e else some b)
      none).map (fun e => e.2)

/-- The Go `mux.HandleFunc(pattern, f)`; `none` where the library panics (an empty
pattern, a pattern registered twice). -/
def ServeMux.HandleFunc (m : ServeMux) (pattern : String) (f : Nat) : Option ServeMux :=
  if pattern = "" ∨ m.entries.any (fun e => e.1 == pattern) then none
  else some ⟨m.entries ++ [(pattern, f)]⟩

/-- The Go `http.NotFound`: status 404. -/
def NotFound (w : ResponseWriter) : ResponseWriter :=
  (w.WriteHeader 404).Write "404 page not found\n"

/-- `mux.ServeHTTP(w, req)` for the `ServeMux` at address `m`. -/
def ServeMux.ServeHTTP (funcs : Nat → HandlerFn σ) (m : Nat) (w : ResponseWriter)
    (req : Request) (s : World σ) : ServeResult σ :=
  match s.heap.get? m with
  | none => none
  | some mux =>
    match mux.handler req.Path with
    | some f => some (funcs f w req s)
    | none => some (NotFound w, s)

/-- Dynamic dispatch of `h.ServeHTTP(w, req)`, with the handler functions given by
`funcs`.  The harness may be its own `Handler`, so the nesting of calls is bounded
by `fuel`; `none` stands for a call that does not return. -/
def serve (funcs : Nat → HandlerFn σ) : Nat → Dispatch σ
  | 0, _, _, _, _ => none
  | fuel + 1, .clientServer, w, req, s => ServeHTTP (serve funcs fuel) w req s
  | _ + 1, .serveMux m, w, req, s => ServeMux.ServeHTTP funcs m w req s
  | _ + 1, .handlerFunc f, w, req, s => some (funcs f w req s)

/-- What the `http.Server` does with a request it has received: it calls its current
`Handler`, read at the time of the request; with none, `http.DefaultServeMux`, on
which nothing is registered. -/
def Server.handle (funcs : Nat → HandlerFn σ) (fuel : Nat) (w : ResponseWriter)
    (req : Request) (s : World σ) : ServeResult σ :=
  match s.t.Server.Config.Handler with
  | some h => serve funcs fuel h w req s
  | none => some (NotFound w, s)

/-- Registration of a route as the tests do it, `cs.Mux().HandleFunc(pattern, f)`;
`none` where `HandleFunc` panics. -/
def MuxHandleFunc (pattern : String) (f : Nat) (s : World σ) : Option (World σ) :=
  let (m, s1) := Mux s
  match s1.heap.get? m with
  | none => none
  | some mux =>
    match mux.HandleFunc pattern f with
    | none => none
    | some mux1 => some { s1 with heap := s1.heap.set m mux1 }

/-- The Go `httptest.NewServer(handler)`, listening at `addr`. -/
def httptest.NewServer (handler : Option Handler) (addr : String) : Server :=
  { URL := addr, Config := { Handler := handler }, closed := false }

/-! ## The client library -/

/-- Modelled from the spec: what the executors of a chain do, the HTTP client of the
embedded server and the caller's middleware, both outside this development. -/
structure Env (σ : Type) where
  client : Doer σ
  middleware : Nat → Doer σ → Doer σ

/-- Modelled from the spec: the call `d.Do(req)` on a stored executor `d`, "function
composition over a capability interface"; the capturing layer is
`captureClientReqResp`, from the source. -/
def DoerRef.Do (env : Env σ) : DoerRef → Doer σ
  | .client => env.client
  | .capture next => captureClientReqResp (next.Do env)
  | .middleware mw next => env.middleware mw (next.Do env)

/-- Modelled from the spec: the type `requests.Option`, a configuration entry of the
request builder, whose source is not part of this development.  An entry is applied
to the client and either changes it or fails. -/
abbrev requests.Option := Requests → Except Error Requests

/-- Modelled from the spec: `(*requests.Requests).Apply(opts...)`, "apply additional
entries to an existing instance".  The entries are applied in order; the first one
that fails makes the whole application fail. -/
def requests.Apply (r : Requests) : List requests.Option → Except Error Requests
  | [] => .ok r
  | o :: os =>
    match o r with
    | .error e => .error e
    | .ok r1 => requests.Apply r1 os

/-- Modelled from the spec: `requests.URL(u)`, the entry that sets the client's base
target. -/
def requests.URL (u : String) : requests.Option := fun r => .ok { r with URL := u }

/-- Modelled from the spec: `requests.Use(m)`, the "chainable executor-wrapping
function" entry: it wraps the executor configured so far in `m`. -/
def requests.Use (m : DoerRef → DoerRef) : requests.Option :=
  fun r => .ok { r with Doer := m r.Doer }

/-- `func (o optionsSlice) Apply(r *requests.Requests) error`. -/
def optionsSlice.Apply (o : List requests.Option) : requests.Option :=
  fun r => requests.Apply r o

/-- `func New(s *httptest.Server, options ...requests.Option) *ClientServer`.
`addr` is the address of the server created when `s` is nil; `.error` is the panic. -/
def New (s : Option Server) (options : List requests.Option) (addr : String) :
    Except Error ClientServer :=
  let s := match s with
    | some s => s
    | none => httptest.NewServer none addr
  let t : ClientServer :=
    { Server := s, Requests := { URL := "", Doer := .client }, Handler := none,
      LastSrvReq := none, LastClientReq := none, LastClientResp := none }
  let t := { t with Server := { t.Server with Config := { Handler := some .clientServer } } }
  match requests.Apply t.Requests
      [requests.URL s.URL, optionsSlice.Apply options, requests.Use DoerRef.capture] with
  | .error e => .error e
  | .ok r => .ok { t with Requests := r }

/-! ## Sequences of operations on a harness -/

/-- What a test does with a harness between two calls of `Mux()`: the methods of
`ClientServer`, the registration of a route, a request arriving at the server, and
a request sent through the capturing executor. -/
inductive Op where
  | clear
  | handlerFunc (hf : Nat)
  | mux
  | handleFunc (pattern : String) (f : Nat)
  | close
  | receive (w : ResponseWriter) (req : Request)
  | send (req : Request)
deriving DecidableEq, Repr

/-- One operation; `none` if it panics or does not return.  `funcs` are the handler
functions of the test, `next` is the executor under the capturing layer. -/
def Op.run (funcs : Nat → HandlerFn σ) (next : Doer σ) (fuel : Nat) :
    Op → World σ → Option (World σ)
  | .clear, s => some { s with t := Clear s.t }
  | .handlerFunc hf, s => some { s with t := HandlerFunc hf s.t }
  | .mux, s => some (Mux s).2
  | .handleFunc pattern f, s => MuxHandleFunc pattern f s
  | .close, s => some { s with t := Close s.t }
  | .receive w req, s => (Server.handle funcs fuel w req s).map (fun r => r.2)
  | .send req, s => some (captureClientReqResp next req s).w

/-- A sequence of operations, in order. -/
def run (funcs : Nat → HandlerFn σ) (next : Doer σ) (fuel : Nat) :
    List Op → World σ → Option (World σ)
  | [], s => some s
  | op :: ops, s =>
    match op.run funcs next fuel s with
    | none => none
    | some s1 => run funcs next fuel ops s1

/-- The routes registered on the `ServeMux` at address `m`. -/
def routes (s : World σ) (m : Nat) : List (String × Nat) :=
  match s.heap.get? m with
  | some mux => mux.entries
  | none => []

/-- A handler function that leaves the server's configuration and the `ServeMux`
objects alone. -/
def HandlerFn.KeepsRouting (f : HandlerFn σ) : Prop :=
  ∀ w req s, (f w req s).2.t.Server = s.t.Server ∧ (f w req s).2.heap = s.heap

/-- An executor that leaves the server's configuration and the `ServeMux` objects
alone. -/
def Doer.KeepsRouting (d : Doer σ) : Prop :=
  ∀ req s, (d req s).w.t.Server = s.t.Server ∧ (d req s).w.heap = s.heap

/-- The handler functions of the tests: number 0 writes status 204, number 1 writes
status 500 and a body, every other one writes nothing. -/
def testFuncs : Nat → HandlerFn σ
  | 0 => fun w _ s => (w.WriteHeader 204, s)
  | 1 => fun w _ s => ((w.WriteHeader 500).Write "red", s)
  | _ => fun w _ s => (w, s)

/-! ## Instrumentation

Calls to code the harness does not own are counted by logging them in a part of the
memory that the called code cannot reach. -/

/-- One logged call `next.Do(req)`: the argument, and the value of `LastClientReq`
that the callee found on entry. -/
structure DoCall where
  req : Request
  seen : Option Request
deriving DecidableEq, Repr

/-- The executor `next`, instrumented: every call `Do(req)` appends a `DoCall` to a
log kept beside the memory `σ`, where `next` itself cannot touch it. -/
def Doer.logged (next : Doer σ) : Doer (σ × List DoCall) := fun req s =>
  let r := next req ⟨s.t, s.heap, s.ext.1⟩
  ⟨r.resp, r.err, ⟨r.w.t, r.w.heap, (r.w.ext, s.ext.2 ++ [⟨req, s.t.LastClientReq⟩])⟩⟩

/-- One logged call `h.ServeHTTP(w, req)`: the receiver, both arguments, and the
value of `LastSrvReq` that the callee found on entry. -/
structure ServeCall where
  h : Handler
  w : ResponseWriter
  req : Request
  seen : Option Request
deriving DecidableEq, Repr

/-- The dispatch `call`, instrumented: every call appends a `ServeCall` to a log kept
beside the memory `σ`, where the handlers themselves cannot touch it. -/
def Dispatch.logged (call : Dispatch σ) : Dispatch (σ × List ServeCall) := fun h w req s =>
  match call h w req ⟨s.t, s.heap, s.ext.1⟩ with
  | none => none
  | some (w1, s1) =>
    some (w1, ⟨s1.t, s1.heap, (s1.ext, s.ext.2 ++ [⟨h, w, req, s.t.LastSrvReq⟩])⟩)

/-- An executor that fails with `e` and returns no response. -/
def failing (e : Error) : Doer σ := fun _ s => ⟨none, some e, s⟩

/-- An executor that answers every request with `resp` and no error. -/
def answering (resp : Response) : Doer σ := fun _ s => ⟨some resp, none, s⟩

/-! ## Concrete inputs -/

/-- The request of `TestSendContext`: `GET /red` carrying `color = "blue"`. -/
def reqBlue : Request :=
  { Method := "GET", Path := "/red", Header := [], Body := "",
    ctx := Context.Background.WithValue "color" "blue" }

/-- A request to `/err`. -/
def reqErr : Request :=
  { Method := "GET", Path := "/err", Header := [], Body := "", ctx := Context.Background }

/-- A response with status 204 and no body. -/
def resp204 : Response := { StatusCode := 204, Header := [], Body := "" }

/-- A response with status 500. -/
def resp500 : Response := { StatusCode := 500, Header := [], Body := "red" }

/-- A harness right after construction on a server at `http://127.0.0.1:1`, with no
handler and nothing captured. -/
def t0 : ClientServer :=
  { Server := { URL := "http://127.0.0.1:1", Config := { Handler := some .clientServer },
                closed := false },
    Requests := { URL := "http://127.0.0.1:1", Doer := .capture .client },
    Handler := none, LastSrvReq := none, LastClientReq := none, LastClientResp := none }

/-- The program state around `t0`: no `ServeMux` allocated, no other memory. -/
def w0 : World Unit := ⟨t0, [], ()⟩

/-- The harness `t0` after an exchange: all three captures are set. -/
def tUsed : ClientServer :=
  { t0 with Handler := some (.handlerFunc 0), LastSrvReq := some reqErr,
            LastClientReq := some reqErr, LastClientResp := some resp500 }

/-- The program state around `tUsed`. -/
def wUsed : World Unit := ⟨tUsed, [], ()⟩

/-- A handler function that writes status 204: `w.WriteHeader(204)`. -/
def write204 : HandlerFn σ := fun w _ s => (w.WriteHeader 204, s)

/-- A dispatch in which every handler is `write204`. -/
def call204 : Dispatch σ := fun _ w req s => some (write204 w req s)

/-- The course of `TestReceive` after the first `Mux()`: a route for `/red`, a request
to it, `Clear`, `HandlerFunc`, a route for `/err` registered through a second `Mux()`,
and a request sent to `/err`. -/
def testOps : List Op :=
  [.handleFunc "/red" 0, .receive ResponseWriter.fresh reqBlue, .clear,
   .handlerFunc 2, .handleFunc "/err" 1, .send reqErr]

/-- The program state after `Mux()` and `testOps` on `w0`. -/
def wAfter : World Unit :=
  ⟨{ t0 with Server := { t0.Server with Config := { Handler := some (.serveMux 0) } },
             Handler := some (.handlerFunc 2),
             LastClientReq := some reqErr, LastClientResp := some resp500 },
   [⟨[("/red", 0), ("/err", 1)]⟩], ()⟩

/-- The program state `w0` after `cs.Mux().HandleFunc("/red", f0)`. -/
def wRed : World Unit :=
  ⟨{ t0 with Server := { t0.Server with Config := { Handler := some (.serveMux 0) } } },
   [⟨[("/red", 0)]⟩], ()⟩

/-- The program state `wRed` after `cs.HandlerFunc(f1)`. -/
def wRedFunc : World Unit := { wRed with t := HandlerFunc 1 wRed.t }

/-- The program state `w0` after `cs.HandlerFunc(f0)`, no `Mux()` before. -/
def wFunc : World Unit := { w0 with t := HandlerFunc 0 w0.t }

/-! ## Theorems -/

/-- C1 (passthrough transparency).  For every executor `next`, request `req` and
program state `s`, the executor `captureClientReqResp next` returns the response and
the error that `next` returned when called with `req` (in the state in which
`LastClientReq` has just been set), whether that is a success or a failure, and the
state it leaves is the one `next` left, with `LastClientResp` set.  For `next`
instrumented with a call log, the log grows by exactly one entry, for `req`: `next`
is called exactly once, with that same request. -/
theorem captureClientReqResp_passthrough (next : Doer σ) (req : Request) (s : World σ)
    (log : List DoCall) :
    (captureClientReqResp next req s).resp
        = (next req { s with t := { s.t with LastClientReq := some req } }).resp
    ∧ (captureClientReqResp next req s).err
        = (next req { s with t := { s.t with LastClientReq := some req } }).err
    ∧ (captureClientReqResp next req s).w
        = { (next req { s with t := { s.t with LastClientReq := some req } }).w with
            t := { (next req { s with t := { s.t with LastClientReq := some req } }).w.t with
                   LastClientResp :=
                     (next req { s with t := { s.t with LastClientReq := some req } }).resp } }
    ∧ ((captureClientReqResp (Doer.logged next) req ⟨s.t, s.heap, (s.ext, log)⟩).w.ext.2).map
          (fun c => c.req)
        = log.map (fun c => c.req) ++ [req] := by
  refine ⟨rfl, rfl, rfl, ?_⟩
  simp [captureClientReqResp, Doer.logged]

/-- C2 (capture fidelity and context propagation).  For every request `req` sent
through the wrapped executor, `next` finds `LastClientReq = req` when it is called,
and what is recorded when the exchange completes is what `next` left there; when
`next` does not itself assign `LastClientReq` (one exchange at a time), the recorded
request is `req` itself: same method, path, headers, body and context, so that every
context value of `req` is read back unchanged from `LastClientReq.Context()`. -/
theorem captureClientReqResp_records_request (next : Doer σ) (req : Request) (s : World σ)
    (log : List DoCall)
    (hframe : ∀ r v, (next r v).w.t.LastClientReq = v.t.LastClientReq) :
    (captureClientReqResp (Doer.logged next) req ⟨s.t, s.heap, (s.ext, log)⟩).w.ext.2
        = log ++ [⟨req, some req⟩]
    ∧ (captureClientReqResp next req s).w.t.LastClientReq
        = (next req { s with t := { s.t with LastClientReq := some req } }).w.t.LastClientReq
    ∧ (captureClientReqResp next req s).w.t.LastClientReq = some req
    ∧ (∀ key, (captureClientReqResp next req s).w.t.LastClientReq.map
          (fun q => q.Context.Value key) = some (req.Context.Value key))
    ∧ (∀ key val, ((captureClientReqResp next
          { req with ctx := req.ctx.WithValue key val } s).w.t.LastClientReq.map
          (fun q => q.Context.Value key)) = some (some val)) := by
  have h : ∀ q, (captureClientReqResp next q s).w.t.LastClientReq = some q := by
    intro q
    show (next q _).w.t.LastClientReq = some q
    rw [hframe]
  refine ⟨rfl, rfl, h req, ?_, ?_⟩
  · intro key
    rw [h req]
    rfl
  · intro key val
    rw [h]
    simp [Request.Context, Context.Value, Context.WithValue]

/-- Witness for C2: the request of `TestSendContext` through an executor that answers
204; the value of `color` read from `LastClientReq.Context()` is `"blue"`. -/
theorem captureClientReqResp_records_request_witness :
    (∀ r v, ((answering resp204 : Doer Unit) r v).w.t.LastClientReq = v.t.LastClientReq)
    ∧ (captureClientReqResp (answering resp204) reqBlue wUsed).w.t.LastClientReq
        = some reqBlue
    ∧ (captureClientReqResp (answering resp204) reqBlue wUsed).w.t.LastClientReq.map
        (fun q => q.Context.Value "color") = some (some "blue") :=
  ⟨fun _ _ => rfl,
   (captureClientReqResp_records_request (answering resp204) reqBlue wUsed []
      (fun _ _ => rfl)).2.2.1,
   (captureClientReqResp_records_request (answering resp204) reqBlue wUsed []
      (fun _ _ => rfl)).2.2.2.1 "color"⟩

/-- C3 (response recording on failure).  For every executor `next`, request `req`
and program state `s`, after `captureClientReqResp next` has run, `LastClientResp`
is the response value `next` returned, with or without an error; in particular after
an executor that fails without a response `LastClientResp` is absent, whatever was
recorded before, and the error is the one returned. -/
theorem captureClientReqResp_records_response (next : Doer σ) (req : Request) (s : World σ)
    (e : Error) :
    (captureClientReqResp next req s).w.t.LastClientResp
        = (next req { s with t := { s.t with LastClientReq := some req } }).resp
    ∧ (captureClientReqResp next req s).w.t.LastClientResp
        = (captureClientReqResp next req s).resp
    ∧ (captureClientReqResp (failing e) req s).w.t.LastClientResp = none
    ∧ (captureClientReqResp (failing e) req s).err = some e :=
  ⟨rfl, rfl, rfl, rfl⟩

/-- C6 (the capture handler records, then delegates).  For every harness whose
`Handler` is present, every response writer `w` and request `req`, `ServeHTTP` is the
call of `Handler.ServeHTTP` with the same `w` and the same `req`, in the state in which
`LastSrvReq` has been overwritten with `req` and `LastClientReq`, `LastClientResp` are
as before.  With the dispatch instrumented by a call log, the log grows by exactly
one entry: that handler, `w`, `req`, and `LastSrvReq = req` seen on entry. -/
theorem ServeHTTP_records_then_delegates (call : Dispatch σ) (w : ResponseWriter)
    (req : Request) (s : World σ) (h : Handler) (hh : s.t.Handler = some h)
    (log : List ServeCall) :
    ServeHTTP call w req s = call h w req { s with t := { s.t with LastSrvReq := some req } }
    ∧ ({ s with t := { s.t with LastSrvReq := some req } } : World σ).t.LastSrvReq = some req
    ∧ ({ s with t := { s.t with LastSrvReq := some req } } : World σ).t.LastClientReq
        = s.t.LastClientReq
    ∧ ({ s with t := { s.t with LastSrvReq := some req } } : World σ).t.LastClientResp
        = s.t.LastClientResp
    ∧ (ServeHTTP (Dispatch.logged call) w req ⟨s.t, s.heap, (s.ext, log)⟩).map
          (fun r => r.2.ext.2)
        = (call h w req { s with t := { s.t with LastSrvReq := some req } }).map
          (fun _ => log ++ [⟨h, w, req, some req⟩]) := by
  refine ⟨?_, rfl, rfl, rfl, ?_⟩
  · simp only [ServeHTTP, hh]
  · have e : ServeHTTP (Dispatch.logged call) w req ⟨s.t, s.heap, (s.ext, log)⟩
        = Dispatch.logged call h w req
            ⟨{ s.t with LastSrvReq := some req }, s.heap, (s.ext, log)⟩ := by
      simp only [ServeHTTP, hh]
    rw [e]
    generalize hr : call h w req { s with t := { s.t with LastSrvReq := some req } } = r
    have e2 : Dispatch.logged call h w req
          ⟨{ s.t with LastSrvReq := some req }, s.heap, (s.ext, log)⟩
        = r.map (fun p => (p.1, ⟨p.2.t, p.2.heap, (p.2.ext, log ++ [⟨h, w, req, some req⟩])⟩)) := by
      unfold Dispatch.logged
      rw [← hr]
      cases call h w req { s with t := { s.t with LastSrvReq := some req } } <;> rfl
    rw [e2]
    cases r <;> rfl

/-- Witness for C6: a harness holding an earlier `LastSrvReq`, with a handler that
writes status 204. -/
theorem ServeHTTP_records_then_delegates_witness :
    wUsed.t.Handler = some (.handlerFunc 0)
    ∧ ServeHTTP call204 ResponseWriter.fresh reqBlue wUsed
        = some (ResponseWriter.fresh.WriteHeader 204,
                { wUsed with t := { wUsed.t with LastSrvReq := some reqBlue } })
    ∧ (ServeHTTP (Dispatch.logged call204) ResponseWriter.fresh reqBlue
          ⟨wUsed.t, wUsed.heap, (wUsed.ext, [])⟩).map (fun r => r.2.ext.2)
        = some [⟨.handlerFunc 0, ResponseWriter.fresh, reqBlue, some reqBlue⟩] :=
  ⟨rfl,
   (ServeHTTP_records_then_delegates call204 ResponseWriter.fresh reqBlue wUsed
      (.handlerFunc 0) rfl []).1,
   (ServeHTTP_records_then_delegates call204 ResponseWriter.fresh reqBlue wUsed
      (.handlerFunc 0) rfl []).2.2.2.2⟩

/-- C9 (a missing handler is a no-op, not an error).  For every harness whose
`Handler` is nil, every response writer `w` and request `req`, and whatever the
handlers of the program would do, `ServeHTTP` returns, hands back `w` as it was (no
write, no header or status change), calls no handler (the call log is unchanged), and
changes nothing in the program state except that `LastSrvReq` is `req`; a writer
nothing was written to gives the transport's default status 200. -/
theorem ServeHTTP_without_handler (call : Dispatch σ) (w : ResponseWriter) (req : Request)
    (s : World σ) (hh : s.t.Handler = none) (log : List ServeCall) :
    ServeHTTP call w req s = some (w, { s with t := { s.t with LastSrvReq := some req } })
    ∧ ServeHTTP (Dispatch.logged call) w req ⟨s.t, s.heap, (s.ext, log)⟩
        = some (w, ⟨{ s.t with LastSrvReq := some req }, s.heap, (s.ext, log)⟩)
    ∧ (ServeHTTP call ResponseWriter.fresh req s).map (fun r => (r.1.StatusCode, r.1.body))
        = some (200, []) := by
  refine ⟨?_, ?_, ?_⟩
  · simp only [ServeHTTP, hh]
  · simp only [ServeHTTP, hh]
  · simp only [ServeHTTP, hh]
    rfl

/-- Witness for C9: the harness right after construction has no `Handler`. -/
theorem ServeHTTP_without_handler_witness :
    w0.t.Handler = none
    ∧ ServeHTTP call204 ResponseWriter.fresh reqBlue w0
        = some (ResponseWriter.fresh, { w0 with t := { w0.t with LastSrvReq := some reqBlue } }) :=
  ⟨rfl, (ServeHTTP_without_handler call204 ResponseWriter.fresh reqBlue w0 rfl []).1⟩

/-- C8 (reset independence).  For every program state, `Clear` leaves `LastSrvReq`,
`LastClientReq` and `LastClientResp` nil and leaves the `Handler` field, the server
(with its top-level handler) and the client unchanged; the routing accessor gives the
same table before and after; `Clear` twice is `Clear` once; and an exchange after
`Clear`, through an executor that does not itself assign `LastClientReq`, records
that exchange's request. -/
theorem Clear_resets_captures_only (s : World σ) (next : Doer σ) (req : Request)
    (hframe : ∀ r v, (next r v).w.t.LastClientReq = v.t.LastClientReq) :
    (Clear s.t).LastSrvReq = none
    ∧ (Clear s.t).LastClientReq = none
    ∧ (Clear s.t).LastClientResp = none
    ∧ (Clear s.t).Handler = s.t.Handler
    ∧ (Clear s.t).Server = s.t.Server
    ∧ (Clear s.t).Requests = s.t.Requests
    ∧ (Mux { s with t := Clear s.t }).1 = (Mux s).1
    ∧ (Mux { s with t := Clear s.t }).2.heap = (Mux s).2.heap
    ∧ Clear (Clear s.t) = Clear s.t
    ∧ (captureClientReqResp next req { s with t := Clear s.t }).w.t.LastClientReq = some req := by
  refine ⟨rfl, rfl, rfl, rfl, rfl, rfl, ?_, ?_, rfl, ?_⟩
  · unfold Mux
    show (match s.t.Server.Config.Handler with
          | some (.serveMux m) => _
          | _ => _ : Nat × World σ).1 = _
    split <;> rfl
  · unfold Mux
    show (match s.t.Server.Config.Handler with
          | some (.serveMux m) => _
          | _ => _ : Nat × World σ).2.heap = _
    split <;> rfl
  · show (next req _).w.t.LastClientReq = some req
    rw [hframe]

/-- Witness for C8: `Clear` on a harness that has captured an exchange with `/err`,
followed by an exchange with `/red`. -/
theorem Clear_resets_captures_only_witness :
    (∀ r v, ((answering resp204 : Doer Unit) r v).w.t.LastClientReq = v.t.LastClientReq)
    ∧ wUsed.t.LastClientReq = some reqErr
    ∧ (Clear wUsed.t).LastClientReq = none
    ∧ (Clear wUsed.t).Handler = some (.handlerFunc 0)
    ∧ (captureClientReqResp (answering resp204) reqBlue
          { wUsed with t := Clear wUsed.t }).w.t.LastClientReq = some reqBlue :=
  ⟨fun _ _ => rfl, rfl,
   (Clear_resets_captures_only wUsed (answering resp204) reqBlue (fun _ _ => rfl)).2.1,
   rfl,
   (Clear_resets_captures_only wUsed (answering resp204) reqBlue (fun _ _ => rfl)).2.2.2.2.2.2.2.2.2⟩

/-! ### The routing accessor -/

/-- Once the server's handler is the `ServeMux` at `m`, `Mux()` returns `m` and
changes nothing. -/
theorem Mux_of_serveMux (s : World σ) (m : Nat)
    (h : s.t.Server.Config.Handler = some (.serveMux m)) : Mux s = (m, s) := by
  unfold Mux
  rw [h]

/-- After `Mux()`, the server's handler is the `ServeMux` that was returned. -/
theorem Mux_installs (s : World σ) :
    (Mux s).2.t.Server.Config.Handler = some (.serveMux (Mux s).1) := by
  unfold Mux
  split
  · next m h => exact h
  · rfl

/-- Handlers that keep the routing leave it as it was, however they are nested. -/
theorem serve_keeps_routing (funcs : Nat → HandlerFn σ)
    (hf : ∀ f, (funcs f).KeepsRouting) :
    ∀ (fuel : Nat) (h : Handler) (w : ResponseWriter) (req : Request) (s : World σ)
      (r : ResponseWriter × World σ), serve funcs fuel h w req s = some r →
      r.2.t.Server = s.t.Server ∧ r.2.heap = s.heap := by
  intro fuel
  induction fuel with
  | zero => intro h w req s r hr; simp [serve] at hr
  | succ n ih =>
    intro h w req s r hr
    cases h with
    | clientServer =>
      simp only [serve, ServeHTTP] at hr
      split at hr
      · next h1 hh =>
        have := ih h1 w req _ r hr
        exact this
      · cases hr
        exact ⟨rfl, rfl⟩
    | serveMux m =>
      simp only [serve, ServeMux.ServeHTTP] at hr
      split at hr
      · cases hr
      · split at hr
        · cases hr
          exact hf _ w req s
        · cases hr
          exact ⟨rfl, rfl⟩
    | handlerFunc f =>
      simp only [serve] at hr
      cases hr
      exact hf f w req s

/-- The routes of a `ServeMux` depend on the `ServeMux` objects only. -/
theorem routes_congr (s s1 : World σ) (m : Nat) (h : s1.heap = s.heap) :
    routes s1 m = routes s m := by
  unfold routes
  rw [h]

/-- One operation on a harness whose server handler is the `ServeMux` at `m` leaves
that handler installed and keeps the routes registered on it. -/
theorem Op.step_keeps_mux (funcs : Nat → HandlerFn σ) (next : Doer σ) (fuel : Nat)
    (hf : ∀ f, (funcs f).KeepsRouting) (hn : next.KeepsRouting)
    (m : Nat) (op : Op) (s s1 : World σ)
    (h : s.t.Server.Config.Handler = some (.serveMux m))
    (hr : op.run funcs next fuel s = some s1) :
    s1.t.Server.Config.Handler = some (.serveMux m) ∧ routes s m <+: routes s1 m := by
  cases op with
  | clear =>
    simp only [Op.run, Option.some.injEq] at hr
    subst hr
    exact ⟨h, List.prefix_refl _⟩
  | handlerFunc hfn =>
    simp only [Op.run, Option.some.injEq] at hr
    subst hr
    exact ⟨h, List.prefix_refl _⟩
  | mux =>
    simp only [Op.run, Mux_of_serveMux s m h, Option.some.injEq] at hr
    subst hr
    exact ⟨h, List.prefix_refl _⟩
  | handleFunc pattern f =>
    simp only [Op.run, MuxHandleFunc, Mux_of_serveMux s m h] at hr
    split at hr
    · cases hr
    · next mux hmux =>
      split at hr
      · cases hr
      · next mux1 hmux1 =>
        simp only [Option.some.injEq] at hr
        subst hr
        refine ⟨h, ?_⟩
        have hlt : m < s.heap.length := by
          rcases Nat.lt_or_ge m s.heap.length with hlt | hge
          · exact hlt
          · rw [List.get?_eq_none.mpr hge] at hmux
            cases hmux
        have e1 : routes s m = mux.entries := by
          simp only [routes, hmux]
        have e2 : routes ({ s with heap := s.heap.set m mux1 } : World σ) m = mux1.entries := by
          simp only [routes, List.get?_eq_getElem?, List.getElem?_set_self hlt]
        rw [e1, e2]
        unfold ServeMux.HandleFunc at hmux1
        split at hmux1
        · cases hmux1
        · simp only [Option.some.injEq] at hmux1
          subst hmux1
          exact List.prefix_append _ _
  | close =>
    simp only [Op.run, Option.some.injEq] at hr
    subst hr
    exact ⟨h, List.prefix_refl _⟩
  | receive w req =>
    simp only [Op.run, Server.handle, h, Option.map_eq_some'] at hr
    obtain ⟨r, hr, rfl⟩ := hr
    have hk := serve_keeps_routing funcs hf fuel (.serveMux m) w req s r hr
    refine ⟨by rw [hk.1]; exact h, ?_⟩
    rw [routes_congr s r.2 m hk.2]
  | send req =>
    simp only [Op.run, Option.some.injEq] at hr
    subst hr
    have hk := hn req { s with t := { s.t with LastClientReq := some req } }
    refine ⟨?_, ?_⟩
    · show (next req _).w.t.Server.Config.Handler = _
      rw [hk.1]
      exact h
    · have : routes (captureClientReqResp next req s).w m = routes s m :=
        routes_congr s _ m hk.2
      rw [this]

/-- A sequence of operations on a harness whose server handler is the `ServeMux` at
`m` leaves that handler installed and keeps the routes registered on it. -/
theorem run_keeps_mux (funcs : Nat → HandlerFn σ) (next : Doer σ) (fuel : Nat)
    (hf : ∀ f, (funcs f).KeepsRouting) (hn : next.KeepsRouting) (m : Nat) :
    ∀ (ops : List Op) (s s1 : World σ),
      s.t.Server.Config.Handler = some (.serveMux m) →
      run funcs next fuel ops s = some s1 →
      s1.t.Server.Config.Handler = some (.serveMux m) ∧ routes s m <+: routes s1 m := by
  intro ops
  induction ops with
  | nil =>
    intro s s1 h hr
    simp only [run, Option.some.injEq] at hr
    subst hr
    exact ⟨h, List.prefix_refl _⟩
  | cons op ops ih =>
    intro s s1 h hr
    simp only [run] at hr
    split at hr
    · cases hr
    · next s2 hs2 =>
      have h2 := Op.step_keeps_mux funcs next fuel hf hn m op s s2 h hs2
      have h3 := ih s2 s1 h2.1 hr
      exact ⟨h3.1, List.IsPrefix.trans h2.2 h3.2⟩

/-- C7 (idempotent routing accessor).  For every program state `s`, a second `Mux()`
right after the first returns the same `ServeMux` and changes nothing; and after any
sequence of operations that follows the first call (`Clear`, `HandlerFunc`, `Mux`,
route registrations, `Close`, requests received and requests sent, with handlers and
an executor that leave the routing alone), `Mux()` still returns that same `ServeMux`,
changes nothing, and every route registered on it earlier is still there. -/
theorem Mux_idempotent (funcs : Nat → HandlerFn σ) (next : Doer σ) (fuel : Nat)
    (hf : ∀ f, (funcs f).KeepsRouting) (hn : next.KeepsRouting)
    (s : World σ) (ops : List Op) (s1 : World σ)
    (hrun : run funcs next fuel ops (Mux s).2 = some s1) :
    Mux (Mux s).2 = ((Mux s).1, (Mux s).2)
    ∧ Mux s1 = ((Mux s).1, s1)
    ∧ routes (Mux s).2 (Mux s).1 <+: routes s1 (Mux s).1 := by
  have h0 := Mux_installs s
  have h1 := run_keeps_mux funcs next fuel hf hn (Mux s).1 ops (Mux s).2 s1 h0 hrun
  exact ⟨Mux_of_serveMux _ _ h0, Mux_of_serveMux _ _ h1.1, h1.2⟩

/-- Witness for C7: the course of `TestReceive`.  A route for `/red`, a request to
it, `Clear`, `HandlerFunc`, then a route for `/err` registered through a second
`Mux()`, and an exchange: one `ServeMux`, at address 0, holds both routes. -/
theorem Mux_idempotent_witness :
    run testFuncs (answering resp500) 2 testOps (Mux w0).2 = some wAfter
    ∧ Mux wAfter = (0, wAfter)
    ∧ routes wAfter 0 = [("/red", 0), ("/err", 1)] :=
  ⟨rfl,
   (Mux_idempotent testFuncs (answering resp500) 2
      (fun f => by
        intro w req s
        match f with
        | 0 => exact ⟨rfl, rfl⟩
        | 1 => exact ⟨rfl, rfl⟩
        | _ + 2 => exact ⟨rfl, rfl⟩)
      (fun _ _ => ⟨rfl, rfl⟩) w0 testOps wAfter rfl).2.1,
   rfl⟩

/-! ### Routes and the capture handler -/

/-- C4 (end-to-end server capture through a route), evaluated.  A harness is
constructed with no handler and a route for `/red` answering 204 is installed on the
table obtained from `Mux()`.  `Mux()` has replaced the harness as the server's
top-level handler, so a request to `/red` is answered with 204 by the route without
passing through `ServeHTTP`: `LastSrvReq` stays nil, for every request to `/red`, every
writer and every nesting bound.  The same handler installed with `HandlerFunc` is
reached through `ServeHTTP`, which records the request. -/
theorem Mux_route_leaves_LastSrvReq_unset :
    New none [] "http://127.0.0.1:1" = .ok t0
    ∧ t0.Handler = none
    ∧ MuxHandleFunc "/red" 0 w0 = some wRed
    ∧ wRed.t.Server.Config.Handler = some (.serveMux 0)
    ∧ Server.handle testFuncs 2 ResponseWriter.fresh reqBlue wRed
        = some (ResponseWriter.fresh.WriteHeader 204, wRed)
    ∧ (ResponseWriter.fresh.WriteHeader 204).StatusCode = 204
    ∧ reqBlue.Path = "/red"
    ∧ wRed.t.LastSrvReq = none
    ∧ (∀ (fuel : Nat) (w : ResponseWriter) (method body : String)
          (header : List (String × String)) (ctx : Context),
        Server.handle testFuncs (fuel + 1) w ⟨method, "/red", header, body, ctx⟩ wRed
          = some (w.WriteHeader 204, wRed))
    ∧ Server.handle testFuncs 2 ResponseWriter.fresh reqBlue wFunc
        = some (ResponseWriter.fresh.WriteHeader 204,
                { wFunc with t := { wFunc.t with LastSrvReq := some reqBlue } }) :=
  ⟨rfl, rfl, rfl, rfl, rfl, rfl, rfl, rfl, fun _ _ _ _ _ _ => rfl, rfl⟩

/-- C5 (direct handler installer after `Mux()`), evaluated.  On a harness on which
`Mux()` has installed a routing table with a route for `/red`, `HandlerFunc(f1)` sets
the `Handler` field, but the server's top-level handler is still the routing table:
a request to `/red` is answered 204 by the route and a request to `/err` gets the
table's 404, where `f1` would answer 500; the table and its route are still
installed.  Without `Mux()` before, the handler installed by `HandlerFunc` serves the
request. -/
theorem HandlerFunc_after_Mux_is_not_served :
    Mux w0 = (0, { wRed with heap := [NewServeMux] })
    ∧ wRedFunc.t.Handler = some (.handlerFunc 1)
    ∧ wRedFunc.t.Server.Config.Handler = some (.serveMux 0)
    ∧ routes wRedFunc 0 = [("/red", 0)]
    ∧ Server.handle testFuncs 2 ResponseWriter.fresh reqBlue wRedFunc
        = some (ResponseWriter.fresh.WriteHeader 204, wRedFunc)
    ∧ Server.handle testFuncs 2 ResponseWriter.fresh reqErr wRedFunc
        = some (NotFound ResponseWriter.fresh, wRedFunc)
    ∧ (NotFound ResponseWriter.fresh).StatusCode = 404
    ∧ (testFuncs 1 ResponseWriter.fresh reqErr wRedFunc).1.StatusCode = 500
    ∧ Server.handle testFuncs 2 ResponseWriter.fresh reqErr { w0 with t := HandlerFunc 1 w0.t }
        = some ((ResponseWriter.fresh.WriteHeader 500).Write "red",
                { w0 with t := { HandlerFunc 1 w0.t with LastSrvReq := some reqErr } }) :=
  ⟨rfl, rfl, rfl, rfl, rfl, rfl, rfl, rfl, rfl⟩

/-! ### Construction -/

/-- C10 (outermost interception at construction).  For every server (or none) and
every list of caller entries, `New` fails exactly when applying the caller entries, in
order, to the client whose base URL is already the server's address fails, and then
with the same error; otherwise the harness it returns has the client those entries
produced, with the capturing layer around its executor.  Calling that executor is
`captureClientReqResp` around the executor the entries configured, so the capturing
layer sees the request before, and the response after, every other layer; this holds
for entries that wrap the executor themselves. -/
theorem New_installs_capture_outermost (s : Option Server)
    (options : List requests.Option) (addr : String) (env : Env σ) (inner : DoerRef)
    (mw : Nat) :
    New s options addr =
      (match requests.Apply
          { URL := (s.getD (httptest.NewServer none addr)).URL, Doer := .client } options with
       | .error e => .error e
       | .ok r => .ok
          { Server := { s.getD (httptest.NewServer none addr) with
                        Config := { Handler := some .clientServer } },
            Requests := { r with Doer := .capture r.Doer },
            Handler := none, LastSrvReq := none, LastClientReq := none,
            LastClientResp := none })
    ∧ (New s options addr).map (fun t => t.Requests.Doer.Do env)
        = (requests.Apply
            { URL := (s.getD (httptest.NewServer none addr)).URL, Doer := .client }
            options).map (fun r => captureClientReqResp (r.Doer.Do env))
    ∧ (DoerRef.capture inner).Do env = captureClientReqResp (inner.Do env)
    ∧ (New s [requests.Use (DoerRef.middleware mw)] addr).map (fun t => t.Requests.Doer)
        = .ok (.capture (.middleware mw .client)) := by
  refine ⟨?_, ?_, rfl, ?_⟩
  · cases s <;>
    · simp only [New, requests.Apply, requests.URL, optionsSlice.Apply, requests.Use,
        Option.getD]
      generalize requests.Apply _ options = a
      cases a <;> rfl
  · cases s <;>
    · simp only [New, requests.Apply, requests.URL, optionsSlice.Apply, requests.Use,
        Option.getD]
      generalize requests.Apply _ options = a
      cases a <;> rfl
  · cases s <;> rfl

end clientserver
